import Mathlib

/-!
Shallow embedding of the Egg-Tracker webhook service (src/index.js, first
file; src/db.js gives the table shapes).  Strings are modelled as Lean
strings (lists of characters); the numeric weights, which the JavaScript
code holds as IEEE doubles produced by parseFloat on short decimal
literals, are modelled exactly as rationals: every literal the code
compares against (4.0, 5.0, 7.0, 8.0, 9.0, 15.0) and every decimal the
regexes can capture is an exact decimal, and the order on those decimals
agrees with the double order, so no rounding behaviour is lost for the
properties stated here.  The database is modelled as in-memory lists of
rows; a query round-trip always succeeds in the model (the claims about
ingestion are conditional on the store write succeeding).
-/

/-- Character class of the JavaScript regex escape used by trim, the
unit-suffix search and parseInt: ASCII whitespace plus NBSP and BOM. -/
def jsWs (c : Char) : Bool :=
  c = ' ' || c = '\t' || c = '\n' || c = '\r' || c = '\x0b' || c = '\x0c' ||
  c.toNat = 160 || c.toNat = 65279

/-- Line terminators, which the dot of a JavaScript regex does not match. -/
def isLineTerm (c : Char) : Bool :=
  c = '\n' || c = '\r' || c.toNat = 8232 || c.toNat = 8233

/-- ASCII lower-casing of a character list, modelling toLowerCase on the
ASCII labels the payloads carry. -/
def lowerL (cs : List Char) : List Char := cs.map Char.toLower

/-- Does the first list occur at the head of the second (exact characters)? -/
def startsL : List Char → List Char → Bool
  | [], _ => true
  | _ :: _, [] => false
  | p :: ps, c :: cs => p = c && startsL ps cs

/-- Substring containment, modelling String.prototype.includes. -/
def containsL (needle : List Char) : List Char → Bool
  | [] => needle.isEmpty
  | c :: rest => startsL needle (c :: rest) || containsL needle rest

/-- Case-insensitive prefix test: the pattern is given in lower case and
each subject character is lowered before comparison. -/
def ciStarts : List Char → List Char → Bool
  | [], _ => true
  | _ :: _, [] => false
  | p :: ps, c :: cs => p = c.toLower && ciStarts ps cs

/-- String.prototype.trim: strip leading and trailing JS whitespace. -/
def trimL (cs : List Char) : List Char :=
  ((cs.dropWhile jsWs).reverse.dropWhile jsWs).reverse

/-- Global case-insensitive removal of the substring "egg", modelling
val.replace with the pattern egg and flags g and i: scan left to right,
delete each (non-overlapping) case-insensitive occurrence. -/
def eggStrip : List Char → List Char
  | a :: b :: c :: r =>
      if a.toLower = 'e' && b.toLower = 'g' && c.toLower = 'g'
      then eggStrip r
      else a :: eggStrip (b :: c :: r)
  | cs => cs

/-- The name normalisation the parser applies to a matched value: remove
every case-insensitive "egg", then trim (src/index.js lines 308 and 323). -/
def stripName (cs : List Char) : String :=
  String.mk (trimL (eggStrip cs))

/-- Value of a decimal digit string. -/
def natOfDigits (ds : List Char) : Nat :=
  ds.foldl (fun a c => 10 * a + (c.toNat - 48)) 0

/-- Exact rational value of the decimal literal with integer digits ds and
fractional digits fds, modelling parseFloat on a regex capture. -/
def decToR (ds fds : List Char) : ℚ :=
  mkRat ((natOfDigits ds * 10 ^ fds.length + natOfDigits fds : Nat) : Int)
        (10 ^ fds.length)

/-- Split off the leading run of decimal digits. -/
def spanDigits : List Char → List Char × List Char
  | [] => ([], [])
  | c :: rest =>
      if c.isDigit then
        let p := spanDigits rest
        (c :: p.1, p.2)
      else ([], c :: rest)

/-- Try to read a decimal number at the head of the list, greedily, exactly
as the regex atom of digits with an optional dot-digits group does: maximal
integer digit run, then a fractional part only when a dot is immediately
followed by at least one digit.  Returns integer digits, fractional digits
and the remainder of the list. -/
def readNum (cs : List Char) : Option (List Char × List Char × List Char) :=
  match cs with
  | c :: _ =>
      if c.isDigit then
        let p := spanDigits cs
        match p.2 with
        | '.' :: r2 =>
            let q := spanDigits r2
            if q.1.isEmpty then some (p.1, [], p.2) else some (p.1, q.1, q.2)
        | _ => some (p.1, [], p.2)
      else none
  | [] => none

/-- Leftmost decimal number in the list, modelling the weight-field regex
of src/index.js line 312 (first numeric token of the field value). -/
def firstNumber : List Char → Option ℚ
  | [] => none
  | c :: rest =>
      match readNum (c :: rest) with
      | some (ds, fds, _) => some (decToR ds fds)
      | none => firstNumber rest

/-- After a captured number, the unit-suffix regex requires optional
whitespace and then the letters k and g in either case. -/
def kgAfter (cs : List Char) : Bool :=
  match cs.dropWhile jsWs with
  | k :: g :: _ => (k = 'k' || k = 'K') && (g = 'g' || g = 'G')
  | _ => false

/-- Leftmost number immediately followed by optional whitespace and a
case-insensitive kg marker, modelling the serialized-payload search of
src/index.js line 326.  The regex needs no backtracking: shortening a
greedy digit run always leaves a digit in front, which can never start
the whitespace-kg tail, so the maximal-run scan is exact. -/
def kgSearch : List Char → Option ℚ
  | [] => none
  | c :: rest =>
      match readNum (c :: rest) with
      | some (ds, fds, r) =>
          if kgAfter r then some (decToR ds fds) else kgSearch rest
      | none => kgSearch rest

/-- Rightmost non-line-terminator character of a whitespace run; used for
the one backtracking case of the content regex below. -/
def lastNonTerm (ws : List Char) : Option Char :=
  (ws.filter (fun c => !isLineTerm c)).getLast?

/-- Remainder of the content regex after the literal label: optional
whitespace, a colon or dash, optional whitespace, then a non-empty greedy
capture of characters up to a line terminator.  When the greedy whitespace
run reaches the end of the string the regex backtracks just enough to hand
the capture one trailing non-terminator whitespace character. -/
def hfTail (cs : List Char) : Option (List Char) :=
  match cs.dropWhile jsWs with
  | sep :: r2 =>
      if sep = ':' || sep = '-' then
        match r2.dropWhile jsWs with
        | d :: r3 => some ((d :: r3).takeWhile (fun c => !isLineTerm c))
        | [] =>
            match lastNonTerm (r2.takeWhile jsWs) with
            | some w => some [w]
            | none => none
      else none
  | [] => none

/-- Leftmost match of the content regex of src/index.js line 322: the
case-insensitive literal label Hatched From, then hfTail; returns the
capture group. -/
def findHF : List Char → Option (List Char)
  | [] => none
  | c :: rest =>
      if ciStarts "hatched from".data (c :: rest) then
        match hfTail (rest.drop 11) with
        | some cap => some cap
        | none => findHF rest
      else findHF rest

/-- Hex digit for the control-character escapes of JSON.stringify. -/
def hexDigit (n : Nat) : Char :=
  if n < 10 then Char.ofNat (48 + n) else Char.ofNat (87 + n)

/-- JSON string-body escaping as performed by JSON.stringify. -/
def jsonEscape : List Char → List Char
  | [] => []
  | c :: rest =>
      (if c = '"' then ['\\', '"']
       else if c = '\\' then ['\\', '\\']
       else if c = '\x08' then ['\\', 'b']
       else if c = '\t' then ['\\', 't']
       else if c = '\n' then ['\\', 'n']
       else if c = '\x0c' then ['\\', 'f']
       else if c = '\r' then ['\\', 'r']
       else if c.toNat < 32 then
         ['\\', 'u', '0', '0', hexDigit (c.toNat / 16), hexDigit (c.toNat % 16)]
       else [c]) ++ jsonEscape rest

/-- A JSON string literal: quote, escaped body, quote. -/
def quoteJS (s : String) : List Char :=
  '"' :: (jsonEscape s.data ++ ['"'])

/-- Comma-join of already serialized members. -/
def joinComma : List (List Char) → List Char
  | [] => []
  | [x] => x
  | x :: y :: rest => x ++ ',' :: joinComma (y :: rest)

/-- Wrap an object body in braces. -/
def braceWrap (cs : List Char) : List Char :=
  '\x7b' :: (cs ++ ['\x7d'])

/-- One serialized object entry. -/
def keyVal (k : String) (v : List Char) : List Char :=
  quoteJS k ++ ':' :: v

/-- Entry for an optional string property: absent properties are omitted
by JSON.stringify. -/
def optStrEntry (k : String) (v : Option String) : List (List Char) :=
  match v with
  | some s => [keyVal k (quoteJS s)]
  | none => []

/-- One ordered label-value pair of a rich-content block; a missing member
is absence, as in the loosely shaped webhook JSON. -/
structure EmbedField where
  name : Option String
  value : Option String
deriving DecidableEq

/-- One rich-content block (a Discord-style embed). -/
structure Embed where
  title : Option String
  fields : Option (List EmbedField)
deriving DecidableEq

/-- The webhook payload shapes the parser reads: an embeds collection, a
top-level free-text content string, and an optional delivery channel id. -/
structure Payload where
  content : Option String
  embeds : Option (List Embed)
  channel_id : Option String
deriving DecidableEq

/-- JSON.stringify of a field object (property order: name, value). -/
def serializeField (f : EmbedField) : List Char :=
  braceWrap (joinComma (optStrEntry "name" f.name ++ optStrEntry "value" f.value))

/-- JSON.stringify of an embed object (property order: title, fields). -/
def serializeEmbed (e : Embed) : List Char :=
  braceWrap (joinComma (
    optStrEntry "title" e.title ++
    (match e.fields with
     | some fs => [keyVal "fields" ('[' :: (joinComma (fs.map serializeField) ++ [']']))]
     | none => [])))

/-- JSON.stringify of the whole payload, the flat text the unit-suffix
search of src/index.js line 326 runs over (property order fixed as
content, embeds, channel_id; no property name contains a digit or the
letters kg, so the order never affects the leftmost numeric match used
by the claims below). -/
def serializePayload (p : Payload) : List Char :=
  braceWrap (joinComma (
    optStrEntry "content" p.content ++
    (match p.embeds with
     | some es => [keyVal "embeds" ('[' :: (joinComma (es.map serializeEmbed) ++ [']']))]
     | none => []) ++
    optStrEntry "channel_id" p.channel_id))

/-- The five named rarity tiers of src/index.js lines 47 to 54. -/
inductive Rarity where
  | semi_huge
  | huge
  | semi_titan
  | titan
  | godly
deriving DecidableEq

/-- classifyRarity of src/index.js lines 47 to 54: weight bands to tier,
none outside every band. -/
def classifyRarity (kg : ℚ) : Option Rarity :=
  if 4 ≤ kg ∧ kg < 5 then some Rarity.semi_huge
  else if 5 ≤ kg ∧ kg < 7 then some Rarity.huge
  else if 7 ≤ kg ∧ kg < 8 then some Rarity.semi_titan
  else if 8 ≤ kg ∧ kg < 9 then some Rarity.titan
  else if 9 ≤ kg ∧ kg ≤ 15 then some Rarity.godly
  else none

/-- The coalescing of a possibly absent string with the empty string, as
in the JavaScript idiom used on field members. -/
def optStr (o : Option String) : String := o.getD ""

/-- JavaScript falsiness of a nullable string: null and the empty string
are falsy. -/
def jsFalsyS (o : Option String) : Bool :=
  match o with
  | none => true
  | some s => s = ""

/-- Does a field label case-insensitively contain "from"
(src/index.js line 307)? -/
def fromLabel (f : EmbedField) : Bool :=
  containsL "from".data (lowerL (optStr f.name).data)

/-- Does a field label case-insensitively contain "weight"
(src/index.js line 311)? -/
def weightLabel (f : EmbedField) : Bool :=
  containsL "weight".data (lowerL (optStr f.name).data)

/-- The name accumulator of the field loop of src/index.js lines 303 to
315: every field whose label contains "from" overwrites the name with its
stripped value, so the last match wins; no match leaves null. -/
def nameFromFields (fs : List EmbedField) : Option String :=
  fs.foldl (fun acc f =>
    if fromLabel f then some (stripName (optStr f.value).data) else acc) none

/-- The weight accumulator of the same loop: every field whose label
contains "weight" and whose value holds a numeric token overwrites the
weight; it starts at 0. -/
def weightFromFields (fs : List EmbedField) : ℚ :=
  fs.foldl (fun acc f =>
    if weightLabel f then
      match firstNumber (optStr f.value).data with
      | some q => q
      | none => acc
    else acc) 0

/-- The first rich-content block, when the embeds collection is present
and non-empty (the truthiness test of src/index.js line 299). -/
def firstEmbed (p : Payload) : Option Embed :=
  match p.embeds with
  | some (e :: _) => some e
  | _ => none

/-- Name after the field strategy (null when there is no first block or
no fields array or no matching field). -/
def fieldName1 (p : Payload) : Option String :=
  match firstEmbed p with
  | some e =>
      match e.fields with
      | some fs => nameFromFields fs
      | none => none
  | none => none

/-- Weight after the field strategy (0 when nothing applies). -/
def fieldWeight (p : Payload) : ℚ :=
  match firstEmbed p with
  | some e =>
      match e.fields with
      | some fs => weightFromFields fs
      | none => 0
  | none => 0

/-- Name after the title fallback of src/index.js line 318: a truthy
title replaces a falsy field-strategy name. -/
def titleName (p : Payload) : Option String :=
  if jsFalsyS (fieldName1 p) then
    match firstEmbed p with
    | some e =>
        match e.title with
        | some t => if t = "" then fieldName1 p else some t
        | none => fieldName1 p
    | none => fieldName1 p
  else fieldName1 p

/-- Name after the content fallback of src/index.js lines 321 to 324. -/
def contentName (p : Payload) : Option String :=
  if jsFalsyS (titleName p) then
    match p.content with
    | some c =>
        if c = "" then titleName p
        else
          match findHF c.data with
          | some cap => some (stripName cap)
          | none => titleName p
    | none => titleName p
  else titleName p

/-- Weight after the serialized-payload fallback of src/index.js lines
326 to 327: the unit-suffix search result is used exactly when the field
strategy left the weight at 0. -/
def finalWeight (p : Payload) : ℚ :=
  if fieldWeight p = 0 then
    match kgSearch (serializePayload p) with
    | some q => q
    | none => fieldWeight p
  else fieldWeight p

/-- The last step of src/index.js line 329: a still-falsy name becomes
the literal Unknown. -/
def finalizeName (o : Option String) : String :=
  match o with
  | some s => if s = "" then "Unknown" else s
  | none => "Unknown"

/-- parseWebhookPayload of src/index.js lines 295 to 331: the name and
weight strategies run independently over the same document. -/
def parseWebhookPayload (p : Payload) : String × ℚ :=
  (finalizeName (contentName p), finalWeight p)

/-- UTC midnight of the UTC calendar date of a millisecond timestamp.
The code builds it as Date.UTC applied to the getUTCFullYear, getUTCMonth
and getUTCDate components of now, which is exactly the floor of now to a
multiple of 86400000 ms in the proleptic Gregorian UTC calendar. -/
def utcMidnight (now : Int) : Int := 86400000 * (Int.fdiv now 86400000)

/-- period.endsWith of a one-character suffix is a last-character test. -/
def jsEndsWithD (s : String) : Bool := s.data.getLast? = some 'd'

/-- Hexadecimal digit test for the radix-16 prefix branch of parseInt. -/
def isHexDig (c : Char) : Bool :=
  c.isDigit || ('a' ≤ c && c ≤ 'f') || ('A' ≤ c && c ≤ 'F')

/-- Hexadecimal digit value. -/
def hexVal (c : Char) : Nat :=
  if c.isDigit then c.toNat - 48
  else if 'a' ≤ c && c ≤ 'f' then c.toNat - 87
  else c.toNat - 55

/-- Value of a hexadecimal digit string. -/
def hexOfDigits (ds : List Char) : Nat :=
  ds.foldl (fun a c => 16 * a + hexVal c) 0

/-- Magnitude part of JavaScript parseInt without a radix argument: a 0x
or 0X prefix switches to hexadecimal, otherwise the maximal leading run
of decimal digits is taken; no digit at all gives NaN (none here). -/
def parseIntCore (cs : List Char) : Option Nat :=
  match cs with
  | '0' :: x :: r =>
      if x = 'x' || x = 'X' then
        let hd := r.takeWhile isHexDig
        if hd.isEmpty then none else some (hexOfDigits hd)
      else some (natOfDigits (('0' :: x :: r).takeWhile Char.isDigit))
  | c :: rest =>
      if c.isDigit then some (natOfDigits ((c :: rest).takeWhile Char.isDigit)) else none
  | [] => none

/-- JavaScript parseInt(s) (radix unspecified): leading whitespace is
skipped, an optional sign is read, then parseIntCore; none models NaN. -/
def parseIntJS (s : String) : Option Int :=
  match s.data.dropWhile jsWs with
  | '-' :: r => (parseIntCore r).map (fun n => -(n : Int))
  | '+' :: r => (parseIntCore r).map (fun n => (n : Int))
  | cs => (parseIntCore cs).map (fun n => (n : Int))

/-- The period-token resolution of the egg command handler, src/index.js
lines 244 to 264, for a runtime whose local zone is UTC (so that setDate
and setHours arithmetic is plain day and hour arithmetic on the epoch
milliseconds).  The token today yields the configured-zone midnight;
a token whose last character is d is parsed with parseInt and subtracts
that many days, and none models the Invalid Date produced when parseInt
returns NaN (toISOString then throws); every other token subtracts 24
hours. -/
def resolvePeriod (period : String) (offsetHours : Int) (now : Int) : Option Int :=
  if period = "today" then some (utcMidnight now - offsetHours * 3600000)
  else if jsEndsWithD period then
    match parseIntJS period with
    | some k => some (now - k * 86400000)
    | none => none
  else some (now - 24 * 3600000)

/-- One row of the settings table (src/db.js): nullable columns are
options. -/
structure SettingsRow where
  guild_id : String
  webhook_channel_id : Option String
  timezone_offset : Option String
  loss_multiplier : Option ℚ
deriving DecidableEq

/-- One row of the hatch_logs table (src/db.js), without the surrogate
key and timestamp, which the claims do not touch. -/
structure LogRow where
  guild_id : String
  egg_name : String
  weight : ℚ
  rarity : Option Rarity
deriving DecidableEq

/-- The persistent state: the settings table and the append-only log. -/
structure Store where
  settings : List SettingsRow
  logs : List LogRow
deriving DecidableEq

/-- Process-wide defaults loaded from the environment at startup. -/
structure Env where
  webhookChannelId : Option String
  defaultTz : String
  defaultLoss : ℚ
deriving DecidableEq

/-- The merged settings getSettings returns. -/
structure GuildSettings where
  webhook_channel_id : Option String
  timezone_offset : String
  loss_multiplier : ℚ
deriving DecidableEq

/-- The JavaScript or-default on a nullable string, null result allowed
(null and the empty string are falsy). -/
def jsOrStrO (v : Option String) (d : Option String) : Option String :=
  match v with
  | some s => if s = "" then d else some s
  | none => d

/-- The JavaScript or-default on a nullable string with a plain default. -/
def jsOrStr (v : Option String) (d : String) : String :=
  match v with
  | some s => if s = "" then d else s
  | none => d

/-- The JavaScript or-default on a nullable number: null and 0 are falsy
(parseFloat on the resulting number is the identity). -/
def jsOrRat (v : Option ℚ) (d : ℚ) : ℚ :=
  match v with
  | some m => if m = 0 then d else m
  | none => d

/-- getSettings of src/index.js lines 64 to 84: no row gives the
process-wide defaults; a row is merged member-wise with the or-default
idiom. -/
def getSettings (env : Env) (rows : List SettingsRow) (guildId : String) : GuildSettings :=
  match rows.find? (fun r => r.guild_id == guildId) with
  | none => ⟨env.webhookChannelId, env.defaultTz, env.defaultLoss⟩
  | some r =>
      ⟨jsOrStrO r.webhook_channel_id env.webhookChannelId,
       jsOrStr r.timezone_offset env.defaultTz,
       jsOrRat r.loss_multiplier env.defaultLoss⟩

/-- saveSettings of src/index.js lines 86 to 96: an upsert keyed on
guild_id that overwrites all four columns. -/
def saveSettings (guildId channelId tz : String) (lm : ℚ)
    (rows : List SettingsRow) : List SettingsRow :=
  if rows.any (fun r => r.guild_id == guildId) then
    rows.map (fun r =>
      if r.guild_id == guildId then ⟨guildId, some channelId, some tz, some lm⟩ else r)
  else rows ++ [⟨guildId, some channelId, some tz, some lm⟩]

/-- insertLog of src/index.js lines 98 to 103: append one row to the
hatch log. -/
def insertLog (guildId eggName : String) (weight : ℚ) (rarity : Option Rarity)
    (st : Store) : Store :=
  ⟨st.settings, st.logs ++ [⟨guildId, eggName, weight, rarity⟩]⟩

/-- The guild attribution of the webhook route, src/index.js lines 339
to 358: the delivery channel (or the process default) is looked up among
the configured notification channels; a miss falls back to an arbitrary
single settings row; a still-falsy guild id becomes the sentinel
unknown. -/
def resolveGuild (env : Env) (body : Payload) (rows : List SettingsRow) : String :=
  let channelId := jsOrStrO body.channel_id env.webhookChannelId
  let sres : Option SettingsRow :=
    match channelId with
    | some c => rows.find? (fun r => r.webhook_channel_id == some c)
    | none => none
  let g1 : Option String := sres.map (fun r => r.guild_id)
  let g2 : Option String :=
    if jsFalsyS g1 then
      match rows.head? with
      | some r0 => some r0.guild_id
      | none => g1
    else g1
  if jsFalsyS g2 then "unknown" else optStr g2

/-- The insertion and response of the same route: the log row always
carries the parsed pair and its classification, under the resolved or
sentinel guild, and the response is 200 when the write succeeds. -/
def handleWebhook (env : Env) (body : Payload) (st : Store) : Store × Nat :=
  let pr := parseWebhookPayload body
  (insertLog (resolveGuild env body st.settings) pr.1 pr.2 (classifyRarity pr.2) st, 200)

/-- States reachable from an empty database through the two writers the
program has: webhook ingestion and the setup command upsert. -/
inductive Reach (env : Env) : Store → Prop where
  | init : Reach env ⟨[], []⟩
  | webhook (p : Payload) {s : Store} (h : Reach env s) :
      Reach env (handleWebhook env p s).1
  | setup (g ch tz : String) (lm : ℚ) {s : Store} (h : Reach env s) :
      Reach env ⟨saveSettings g ch tz lm s.settings, s.logs⟩

/-- Every stored log row carries the rarity of its stored weight. -/
def logInvariant (st : Store) : Prop :=
  ∀ row ∈ st.logs, row.rarity = classifyRarity row.weight

/-- The tier-band table of the specification, written from its words: a
half-open band from each lower bound, with the single closed upper
boundary at 15. -/
def specRarityBands (w : ℚ) : Option Rarity :=
  if 4 ≤ w ∧ w < 5 then some Rarity.semi_huge
  else if 5 ≤ w ∧ w < 7 then some Rarity.huge
  else if 7 ≤ w ∧ w < 8 then some Rarity.semi_titan
  else if 8 ≤ w ∧ w < 9 then some Rarity.titan
  else if 9 ≤ w ∧ w ≤ 15 then some Rarity.godly
  else none

/-- The content-text strategy followed by the Unknown fallback, as the
parser runs them once the earlier name strategies have produced nothing
usable. -/
def lateNameContent (p : Payload) : String :=
  match p.content with
  | some c =>
      if c = "" then "Unknown"
      else
        match findHF c.data with
        | some cap => finalizeName (some (stripName cap))
        | none => "Unknown"
  | none => "Unknown"

/-- The name the parser produces when the field strategy yields nothing
usable: the non-empty title of the first block, else the content strategy,
else Unknown. -/
def lateName (p : Payload) : String :=
  match firstEmbed p with
  | some e =>
      match e.title with
      | some t => if t = "" then lateNameContent p else t
      | none => lateNameContent p
  | none => lateNameContent p

/-- A payload whose only from-labelled field strips to the empty string
while the first block carries a title. -/
def pCex1 : Payload :=
  ⟨none, some [⟨some "T", some [⟨some "Hatched From", some "egg"⟩]⟩], none⟩

/-- A payload with two from-labelled fields, Common Egg then Rare Egg. -/
def pW1 : Payload :=
  ⟨none, some [⟨none, some [⟨some "Hatched From", some "Common Egg"⟩,
                            ⟨some "Hatched From", some "Rare Egg"⟩]⟩], none⟩

/-- A payload with no weight-labelled field whose serialized form
contains the text 7.25kg. -/
def pC3 : Payload := ⟨some "Hatched From: Mystic weighing 7.25kg", none, none⟩

/-- A payload whose only from-labelled field value consists of egg
occurrences and whitespace, next to a usable title. -/
def pW10 : Payload :=
  ⟨none, some [⟨some "Mystic", some [⟨some "Hatched From", some "Egg egg"⟩]⟩], none⟩

/-- Environment defaults used by the concrete ingestion witnesses. -/
def envW6 : Env := ⟨some "chan9", "UTC+0", 1⟩

/-- A free-text payload delivered on an unconfigured channel. -/
def pW6 : Payload := ⟨some "Hatched From: Shiny Egg", none, some "chan1"⟩

/-- Environment defaults used by the invariant witness. -/
def envW7 : Env := ⟨none, "UTC+0", 1⟩

/-- A payload carrying both a name and a unit-suffixed weight. -/
def pW7 : Payload := ⟨some "Hatched From: Mystic Egg - 8.5 kg", none, none⟩

/-- Environment defaults used by the settings witnesses. -/
def envW8 : Env := ⟨some "envchan", "UTC+0", 1⟩

/-- A stored settings row whose timezone column is the empty string. -/
def rowW8 : SettingsRow := ⟨"g1", some "chan", some "", some 2⟩

theorem decToR_nonneg (ds fds : List Char) : 0 ≤ decToR ds fds := by
  unfold decToR
  rw [Rat.mkRat_eq_div]
  positivity

theorem firstNumber_nonneg (cs : List Char) (q : ℚ)
    (h : firstNumber cs = some q) : 0 ≤ q := by
  induction cs with
  | nil => simp [firstNumber] at h
  | cons c rest ih =>
      unfold firstNumber at h
      rcases hr : readNum (c :: rest) with _ | ⟨ds, fds, r⟩
      · rw [hr] at h
        exact ih h
      · rw [hr] at h
        simp at h
        rw [← h]
        exact decToR_nonneg ds fds

theorem kgSearch_nonneg (cs : List Char) (q : ℚ)
    (h : kgSearch cs = some q) : 0 ≤ q := by
  induction cs with
  | nil => simp [kgSearch] at h
  | cons c rest ih =>
      unfold kgSearch at h
      rcases hr : readNum (c :: rest) with _ | ⟨ds, fds, r⟩
      · rw [hr] at h
        exact ih h
      · rw [hr] at h
        dsimp only at h
        by_cases hk : kgAfter r = true
        · rw [if_pos hk] at h
          simp at h
          rw [← h]
          exact decToR_nonneg ds fds
        · rw [if_neg hk] at h
          exact ih h

theorem weightFoldl_nonneg (fs : List EmbedField) (a : ℚ) (ha : 0 ≤ a) :
    0 ≤ fs.foldl (fun acc f =>
      if weightLabel f then
        match firstNumber (optStr f.value).data with
        | some q => q
        | none => acc
      else acc) a := by
  induction fs generalizing a with
  | nil => simpa using ha
  | cons f fs ih =>
      rw [List.foldl_cons]
      apply ih
      by_cases hw : weightLabel f = true
      · rw [if_pos hw]
        rcases hq : firstNumber (optStr f.value).data with _ | q
        · exact ha
        · exact firstNumber_nonneg _ q hq
      · rw [if_neg hw]
        exact ha

theorem fieldWeight_nonneg (p : Payload) : 0 ≤ fieldWeight p := by
  unfold fieldWeight
  rcases firstEmbed p with _ | e
  · exact le_refl (0 : ℚ)
  · dsimp only
    rcases e.fields with _ | fs
    · exact le_refl (0 : ℚ)
    · dsimp only
      unfold weightFromFields
      exact weightFoldl_nonneg fs 0 (le_refl (0 : ℚ))

theorem finalWeight_nonneg (p : Payload) : 0 ≤ finalWeight p := by
  unfold finalWeight
  by_cases h : fieldWeight p = 0
  · rw [if_pos h]
    rcases hk : kgSearch (serializePayload p) with _ | q
    · exact fieldWeight_nonneg p
    · exact kgSearch_nonneg _ q hk
  · rw [if_neg h]
    exact fieldWeight_nonneg p

theorem finalizeName_ne_empty (o : Option String) : finalizeName o ≠ "" := by
  rcases o with _ | s
  · decide
  · by_cases hs : s = "" <;> simp [finalizeName, hs]

theorem finalizeName_of_falsy (o : Option String) (h : jsFalsyS o = true) :
    finalizeName o = "Unknown" := by
  rcases o with _ | s
  · rfl
  · have hs : s = "" := by simpa [jsFalsyS] using h
    simp [finalizeName, hs]

theorem lateNameContent_ne_empty (p : Payload) : lateNameContent p ≠ "" := by
  unfold lateNameContent
  rcases p.content with _ | c
  · decide
  · dsimp only
    by_cases hc : c = ""
    · simp [hc]
    · rw [if_neg hc]
      rcases findHF c.data with _ | cap
      · decide
      · exact finalizeName_ne_empty _

theorem lateName_ne_empty (p : Payload) : lateName p ≠ "" := by
  unfold lateName
  rcases hfe : firstEmbed p with _ | e
  · exact lateNameContent_ne_empty p
  · dsimp only
    rcases ht : e.title with _ | t
    · exact lateNameContent_ne_empty p
    · dsimp only
      by_cases hT : t = ""
      · rw [if_pos hT]
        exact lateNameContent_ne_empty p
      · rw [if_neg hT]
        exact hT

theorem parse_name_of_falsy (p : Payload) (h : jsFalsyS (fieldName1 p) = true) :
    (parseWebhookPayload p).1 = lateName p := by
  have htitle : (titleName p = fieldName1 p ∧ lateName p = lateNameContent p) ∨
      (∃ t, t ≠ "" ∧ titleName p = some t ∧ lateName p = t) := by
    unfold titleName lateName
    rcases hfe : firstEmbed p with _ | e
    · exact Or.inl ⟨by simp [h], rfl⟩
    · dsimp only
      rcases ht : e.title with _ | t
      · exact Or.inl ⟨by simp [h], rfl⟩
      · dsimp only
        by_cases hT : t = ""
        · exact Or.inl ⟨by simp [h, hT], by simp [hT]⟩
        · exact Or.inr ⟨t, hT, by simp [h, hT], by simp [hT]⟩
  rcases htitle with ⟨hT, hL⟩ | ⟨t, htne, hT, hL⟩
  · have hfalsy2 : jsFalsyS (titleName p) = true := by rw [hT]; exact h
    rw [hL]
    show finalizeName (contentName p) = lateNameContent p
    unfold contentName lateNameContent
    rw [if_pos hfalsy2]
    rcases hc : p.content with _ | c
    · dsimp only
      rw [hT]
      exact finalizeName_of_falsy _ h
    · dsimp only
      by_cases hC : c = ""
      · rw [if_pos hC, if_pos hC, hT]
        exact finalizeName_of_falsy _ h
      · rw [if_neg hC, if_neg hC]
        rcases hf : findHF c.data with _ | cap
        · dsimp only
          rw [hT]
          exact finalizeName_of_falsy _ h
        · rfl
  · rw [hL]
    show finalizeName (contentName p) = t
    have hcn : contentName p = some t := by
      unfold contentName
      rw [hT]
      simp [jsFalsyS, htne]
    rw [hcn]
    simp [finalizeName, htne]

theorem nameFoldl_falsy (fs : List EmbedField) (a : Option String)
    (hall : ∀ f ∈ fs, fromLabel f = true → stripName (optStr f.value).data = "")
    (ha : jsFalsyS a = true) :
    jsFalsyS (fs.foldl (fun acc f =>
      if fromLabel f then some (stripName (optStr f.value).data) else acc) a) = true := by
  induction fs generalizing a with
  | nil => simpa using ha
  | cons f fs ih =>
      rw [List.foldl_cons]
      apply ih
      · intro g hg hgl
        exact hall g (List.mem_cons_of_mem f hg) hgl
      · by_cases hf : fromLabel f = true
        · rw [if_pos hf, hall f (List.mem_cons_self f fs) hf]
          rfl
        · rw [if_neg hf]
          exact ha

theorem handleWebhook_logs (env : Env) (p : Payload) (st : Store) :
    (handleWebhook env p st).1.logs =
      st.logs ++ [⟨resolveGuild env p st.settings, (parseWebhookPayload p).1,
                   (parseWebhookPayload p).2,
                   classifyRarity (parseWebhookPayload p).2⟩] := rfl

theorem resolveGuild_empty (env : Env) (p : Payload) :
    resolveGuild env p [] = "unknown" := by
  unfold resolveGuild
  rcases jsOrStrO p.channel_id env.webhookChannelId with _ | c <;> simp [jsFalsyS]

/-- C1 counterexample: in pCex1 the last (and only) field whose label
contains "from" has the value egg, whose stripped and trimmed form is the
empty string, yet interpret returns the title T rather than that stripped
value, so the name is not determined by the last matching field. -/
theorem c1_counterexample :
    fromLabel ⟨some "Hatched From", some "egg"⟩ = true ∧
    stripName "egg".data = "" ∧
    (parseWebhookPayload pCex1).1 = "T" ∧ ("T" : String) ≠ "" := by decide

/-- C1 (amended): for every payload whose first rich-content block has a
fields list, when the field loop produces a name (the stripped, trimmed
value of the last field whose label case-insensitively contains "from")
and that name is non-empty, interpret returns exactly it. -/
theorem c1_last_from_field_nonempty_wins (p : Payload) (e : Embed)
    (es : List Embed) (fs : List EmbedField) (s : String)
    (he : p.embeds = some (e :: es)) (hf : e.fields = some fs)
    (hn : nameFromFields fs = some s) (hs : s ≠ "") :
    (parseWebhookPayload p).1 = s := by
  have h1 : fieldName1 p = some s := by
    unfold fieldName1 firstEmbed
    rw [he]
    dsimp only
    rw [hf]
    exact hn
  have hfal : jsFalsyS (fieldName1 p) = false := by
    rw [h1]
    simp [jsFalsyS, hs]
  have ht : titleName p = some s := by
    unfold titleName
    rw [hfal]
    simp [h1]
  have hc : contentName p = some s := by
    unfold contentName
    rw [ht]
    simp [jsFalsyS, hs]
  show finalizeName (contentName p) = s
  rw [hc]
  simp [finalizeName, hs]

/-- C1 witness: the two-field block Common Egg then Rare Egg yields
exactly the name Rare. -/
theorem c1_witness : (parseWebhookPayload pW1).1 = "Rare" :=
  c1_last_from_field_nonempty_wins pW1
    ⟨none, some [⟨some "Hatched From", some "Common Egg"⟩,
                 ⟨some "Hatched From", some "Rare Egg"⟩]⟩ []
    [⟨some "Hatched From", some "Common Egg"⟩,
     ⟨some "Hatched From", some "Rare Egg"⟩] "Rare" rfl rfl (by decide) (by decide)

/-- C2: classifyRarity agrees with the band table of the specification on
every rational weight, and takes the claimed values at the boundary
inputs 3.999, 4.0, 8.999, 9.0, 15.0 and 15.001. -/
theorem c2_classify_bands :
    (∀ w : ℚ, classifyRarity w = specRarityBands w) ∧
    classifyRarity (mkRat 3999 1000) = none ∧
    classifyRarity 4 = some Rarity.semi_huge ∧
    classifyRarity (mkRat 8999 1000) = some Rarity.titan ∧
    classifyRarity 9 = some Rarity.godly ∧
    classifyRarity 15 = some Rarity.godly ∧
    classifyRarity (mkRat 15001 1000) = none :=
  ⟨fun _ => rfl, by decide, by decide, by decide, by decide, by decide, by decide⟩

/-- C3: the parsed weight is the unit-suffix search over the serialized
payload exactly when the weight-labelled-field strategy left the weight
at its 0 sentinel, and otherwise is the field-strategy weight; on the
concrete payload pC3 (no weight field, serialization containing 7.25kg)
the weight is 7.25 and the rarity semi_titan. -/
theorem c3_weight_fallback :
    (∀ p : Payload, (parseWebhookPayload p).2 =
      if fieldWeight p = 0 then (kgSearch (serializePayload p)).getD 0
      else fieldWeight p) ∧
    (parseWebhookPayload pC3).2 = mkRat 725 100 ∧
    classifyRarity (parseWebhookPayload pC3).2 = some Rarity.semi_titan := by
  refine ⟨fun p => ?_, by decide, by decide⟩
  show finalWeight p = _
  unfold finalWeight
  by_cases h : fieldWeight p = 0
  · rw [if_pos h, if_pos h]
    rcases hk : kgSearch (serializePayload p) with _ | q
    · dsimp only
      rw [h]
      rfl
    · rfl
  · rw [if_neg h, if_neg h]

/-- C4: resolving the token today yields UTC midnight of the UTC calendar
date of now, shifted down by the timezone offset in hours; with offset 8
and now 2024-01-15T03:00:00Z (1705287600000 ms) the cutoff is
2024-01-14T16:00:00Z (1705248000000 ms). -/
theorem c4_today_cutoff :
    (∀ (h now : Int), resolvePeriod "today" h now =
      some (utcMidnight now - h * 3600000)) ∧
    resolvePeriod "today" 8 1705287600000 = some 1705248000000 :=
  ⟨fun _ _ => rfl, by decide⟩

/-- C5 counterexample: the malformed token abcd is neither today nor 24h
nor of the integer-d form, yet the resolver does not produce the 24h
cutoff: it takes the endsWith-d branch, parseInt yields NaN, and the
resulting Invalid Date (none here) makes toISOString throw. -/
theorem c5_counterexample :
    resolvePeriod "abcd" 0 1705287600000 = none ∧
    resolvePeriod "24h" 0 1705287600000 = some 1705201200000 := by decide

/-- C5 (amended): every token other than today whose last character is
not d resolves to now minus 24 hours, the 24h behaviour, and never
fails; tokens ending in d are instead parsed with parseInt and fail when
no integer prefix exists. -/
theorem c5_fallback_amended (period : String) (offsetHours now : Int)
    (h1 : period ≠ "today") (h2 : jsEndsWithD period = false) :
    resolvePeriod period offsetHours now = some (now - 24 * 3600000) := by
  unfold resolvePeriod
  rw [if_neg h1, h2]
  simp

/-- C5 witness: the unrecognized token garbage resolves to the 24h
cutoff. -/
theorem c5_witness :
    resolvePeriod "garbage" 7 123456789 = some (123456789 - 24 * 3600000) :=
  c5_fallback_amended "garbage" 7 123456789 (by decide) (by decide)

/-- C6: when the settings storage is empty (so the delivery channel
matches no configured guild and no fallback row exists), ingestion still
records the event under the sentinel guild unknown with the parsed pair
and its classification, and answers 200, the store write having
succeeded in the model. -/
theorem c6_unattributed_recorded (env : Env) (p : Payload) (st : Store)
    (h : st.settings = []) :
    (handleWebhook env p st).2 = 200 ∧
    (handleWebhook env p st).1.logs =
      st.logs ++ [⟨"unknown", (parseWebhookPayload p).1, (parseWebhookPayload p).2,
                   classifyRarity (parseWebhookPayload p).2⟩] := by
  refine ⟨rfl, ?_⟩
  rw [handleWebhook_logs, h, resolveGuild_empty]

/-- C6 witness: a free-text payload delivered on an unconfigured channel
against an empty store is recorded as unknown with status 200. -/
theorem c6_witness :
    (handleWebhook envW6 pW6 ⟨[], []⟩).2 = 200 ∧
    (handleWebhook envW6 pW6 ⟨[], []⟩).1.logs =
      ([] : List LogRow) ++
        [⟨"unknown", (parseWebhookPayload pW6).1, (parseWebhookPayload pW6).2,
          classifyRarity (parseWebhookPayload pW6).2⟩] :=
  c6_unattributed_recorded envW6 pW6 ⟨[], []⟩ rfl

/-- C7: in every store reachable through the two writers of the program, the
stored rarity of each log row equals classifyRarity of its stored weight,
because ingestion is the only writer of the log and always stores the
classification of the weight it stores. -/
theorem c7_rarity_invariant (env : Env) (s : Store) (h : Reach env s) :
    logInvariant s := by
  induction h with
  | init =>
      intro row hr
      exact absurd hr (List.not_mem_nil row)
  | webhook p hs ih =>
      intro row hr
      rw [handleWebhook_logs] at hr
      rcases List.mem_append.mp hr with hmem | hmem
      · exact ih row hmem
      · have heq := List.mem_singleton.mp hmem
        subst heq
        rfl
  | setup g ch tz lm hs ih =>
      intro row hr
      exact ih row hr

/-- C7 witness: the invariant holds in the concrete store reached by one
ingestion of the payload pW7 from the empty store. -/
theorem c7_witness : logInvariant (handleWebhook envW7 pW7 ⟨[], []⟩).1 :=
  c7_rarity_invariant envW7 (handleWebhook envW7 pW7 ⟨[], []⟩).1
    (Reach.webhook pW7 Reach.init)

/-- C8: with no stored row getSettings returns exactly the process-wide
defaults; with a stored row whose timezone column is null or empty it
returns the default timezone while still returning the stored channel
and stored loss multiplier (these being present and non-empty). -/
theorem c8_settings_defaulting (env : Env) (rows : List SettingsRow) (g : String) :
    (rows.find? (fun r => r.guild_id == g) = none →
      getSettings env rows g = ⟨env.webhookChannelId, env.defaultTz, env.defaultLoss⟩) ∧
    (∀ (r : SettingsRow) (c : String) (m : ℚ),
      rows.find? (fun r => r.guild_id == g) = some r →
      (r.timezone_offset = none ∨ r.timezone_offset = some "") →
      r.webhook_channel_id = some c → c ≠ "" →
      r.loss_multiplier = some m → m ≠ 0 →
      getSettings env rows g = ⟨some c, env.defaultTz, m⟩) := by
  constructor
  · intro h
    unfold getSettings
    rw [h]
  · intro r c m hfind htz hch hc hm hm0
    unfold getSettings
    rw [hfind]
    rcases htz with h | h <;>
      simp [jsOrStrO, jsOrStr, jsOrRat, h, hch, hc, hm, hm0]

/-- C8 witness: the concrete store with the single row rowW8 (empty
timezone, channel chan, multiplier 2): an unknown guild gets exactly the
defaults; guild g1 gets the default timezone with stored channel and
multiplier. -/
theorem c8_witness :
    getSettings envW8 [rowW8] "g2" = ⟨some "envchan", "UTC+0", 1⟩ ∧
    getSettings envW8 [rowW8] "g1" = ⟨some "chan", "UTC+0", 2⟩ :=
  ⟨(c8_settings_defaulting envW8 [rowW8] "g2").1 (by decide),
   (c8_settings_defaulting envW8 [rowW8] "g1").2 rowW8 "chan" 2 (by decide)
     (Or.inr rfl) rfl (by decide) rfl (by decide)⟩

/-- C9: interpret is total on the modelled well-formed document shapes:
it always returns a pair whose name is non-empty (so never throws and
never yields an empty name) and whose weight is non-negative, and the
empty payload yields exactly Unknown with weight 0. -/
theorem c9_interpret_total :
    (∀ p : Payload, (parseWebhookPayload p).1 ≠ "" ∧ 0 ≤ (parseWebhookPayload p).2) ∧
    parseWebhookPayload ⟨none, none, none⟩ = ("Unknown", 0) :=
  ⟨fun p => ⟨finalizeName_ne_empty (contentName p), finalWeight_nonneg p⟩, by decide⟩

/-- C10: when every from-labelled field of the fields list of the first block
strips to the empty string (and at least one such field exists), the
field strategy is treated as having found nothing: interpret falls
through to the title, then the content pattern, then Unknown, and never
returns the empty string. -/
theorem c10_empty_strip_fallthrough (p : Payload) (e : Embed) (es : List Embed)
    (fs : List EmbedField)
    (he : p.embeds = some (e :: es)) (hf : e.fields = some fs)
    (_hex : ∃ f ∈ fs, fromLabel f = true)
    (hall : ∀ f ∈ fs, fromLabel f = true → stripName (optStr f.value).data = "") :
    (parseWebhookPayload p).1 = lateName p ∧ (parseWebhookPayload p).1 ≠ "" := by
  have h1 : fieldName1 p = nameFromFields fs := by
    unfold fieldName1 firstEmbed
    rw [he]
    dsimp only
    rw [hf]
  have hfal : jsFalsyS (fieldName1 p) = true := by
    rw [h1]
    unfold nameFromFields
    exact nameFoldl_falsy fs none hall rfl
  refine ⟨parse_name_of_falsy p hfal, ?_⟩
  rw [parse_name_of_falsy p hfal]
  exact lateName_ne_empty p

/-- C10 witness: the only from-labelled field of pW10 strips to empty
and interpret falls through to the title Mystic. -/
theorem c10_witness :
    (parseWebhookPayload pW10).1 = lateName pW10 ∧ (parseWebhookPayload pW10).1 ≠ "" :=
  c10_empty_strip_fallthrough pW10
    ⟨some "Mystic", some [⟨some "Hatched From", some "Egg egg"⟩]⟩ []
    [⟨some "Hatched From", some "Egg egg"⟩] rfl rfl
    ⟨⟨some "Hatched From", some "Egg egg"⟩, by decide, by decide⟩
    (by decide)
